import Mathlib

/-!
Shallow embedding of the Sushi Go client (royale_bot.py): the game-state
record, the decision engine (choose_card, valid_combo, chopstick_combo,
should_grab_chopsticks, choose_chopsticks), the state-model operations
(record_play, handle_played, handle_round_start, handle_game_start) and the
per-game message loop, together with theorems about them.

Python dicts are modelled as insertion-ordered association lists, Python
ints as Int (Nat where the source value is a list index), and Optional as
Option.  Python list.index is List.indexOf, list.remove is List.erase,
list.count is List.count.
-/

namespace SushiGo

/-- The per-game mutable state (class GameState in the source), restricted to
the fields that the decision engine and the state-model operations touch. -/
structure GameState where
  player_name : String := ""
  hand : List String := []
  player_count : Int := 0
  all_hands : List (Option (List String)) := []
  current_hand_ptr : Nat := 0
  my_tableau : List String := []
  all_tableaux : List (String × List String) := []
  last_card_played : Option String := none
  last_turn_reveals : List (String × List String) := []
  round : Int := 1
  turn : Int := 1
deriving DecidableEq

/-- GameState.count: occurrences of a card in my tableau. -/
def GameState.count (st : GameState) (card : String) : Nat :=
  st.my_tableau.count card

/-- GameState.has_chopsticks: Chopsticks is in my tableau. -/
def GameState.has_chopsticks (st : GameState) : Bool :=
  decide ("Chopsticks" ∈ st.my_tableau)

/-- GameState.has_unused_wasabi: more Wasabi than Nigiri in my tableau. -/
def GameState.has_unused_wasabi (st : GameState) : Bool :=
  decide (st.count "Wasabi" >
    st.count "Egg Nigiri" + st.count "Salmon Nigiri" + st.count "Squid Nigiri")

/-- GameState.puddings: Pudding count in my tableau. -/
def GameState.puddings (st : GameState) : Nat :=
  st.count "Pudding"

/-- GameState.next_hand: the slot one past the cursor, None when the slot is
out of range or itself unknown (the Python property returns the Optional
slot content directly, so both cases collapse to None). -/
def GameState.next_hand (st : GameState) : Option (List String) :=
  (st.all_hands.get? (st.current_hand_ptr + 1)).join

/-- The source's occurances helper: counts matching elements by a loop. -/
def occurances : List String → String → Nat
  | [], _ => 0
  | c :: rest, card => (if c = card then 1 else 0) + occurances rest card

/-- valid_combo: single-card combo completions worth playing now, collected
in the source's fixed order Sashimi, Squid, Salmon, Tempura, Egg. -/
def valid_combo (st : GameState) (hand my_table : List String) : List String :=
  (if occurances my_table "Sashimi" % 3 = 2 ∧ "Sashimi" ∈ hand then ["Sashimi"] else []) ++
  (if st.has_unused_wasabi = true ∧ "Squid Nigiri" ∈ hand then ["Squid Nigiri"] else []) ++
  (if st.has_unused_wasabi = true ∧ "Salmon Nigiri" ∈ hand then ["Salmon Nigiri"] else []) ++
  (if occurances my_table "Tempura" % 2 = 1 ∧ "Tempura" ∈ hand then ["Tempura"] else []) ++
  (if st.has_unused_wasabi = true ∧ "Egg Nigiri" ∈ hand then ["Egg Nigiri"] else [])

/-- should_grab_chopsticks: pick Chopsticks up now because the next known
hand carries a combo to cash in. -/
def should_grab_chopsticks (hand : List String) (st : GameState) : Bool :=
  if "Chopsticks" ∉ hand then false
  else if st.has_chopsticks = true then false
  else
    match st.next_hand with
    | none => false
    | some next_h =>
      if "Wasabi" ∈ next_h ∧
          ("Egg Nigiri" ∈ next_h ∨ "Salmon Nigiri" ∈ next_h ∨ "Squid Nigiri" ∈ next_h) then
        true
      else if 2 ≤ next_h.count "Sashimi" then true
      else if 2 ≤ next_h.count "Tempura" then true
      else false

/-- The fixed total-turn table of the pudding rule (2p to 10 turns, 3p to 9,
4p to 8, 5p to 7, anything else left at 0). -/
def total_turns_for (pc : Int) : Int :=
  if pc = 2 then 10
  else if pc = 3 then 9
  else if pc = 4 then 8
  else if pc = 5 then 7
  else 0

/-- Python max over a non-empty list (0 on an empty one, never reached). -/
def listMax : List Int → Int
  | [] => 0
  | x :: xs => xs.foldl max x

/-- Python min over a non-empty list (0 on an empty one, never reached). -/
def listMin : List Int → Int
  | [] => 0
  | x :: xs => xs.foldl min x

/-- Pudding count of every tracked tableau, in dict iteration order. -/
def pudding_counts_of (tabs : List (String × List String)) : List Int :=
  tabs.map (fun p => (p.2.count "Pudding" : Int))

/-- The pudding-acquisition condition of choose_card: counts are non-empty
and we are strictly behind the max but can catch up, or at or below the min. -/
def pudding_rule (st : GameState) : Bool :=
  decide (pudding_counts_of st.all_tableaux ≠ [] ∧
    (((st.puddings : Int) < listMax (pudding_counts_of st.all_tableaux) ∧
      (st.puddings : Int) + (total_turns_for st.player_count - st.turn) >
        listMax (pudding_counts_of st.all_tableaux)) ∨
     (st.puddings : Int) ≤ listMin (pudding_counts_of st.all_tableaux)))

/-- Number of Nigiri-variant cards in the hand. -/
def nigiriCount (hand : List String) : Nat :=
  hand.countP (fun c => c == "Egg Nigiri" || c == "Salmon Nigiri" || c == "Squid Nigiri")

/-- choose_card: the single-play decision ladder of the source, top to
bottom, first match wins; index 0 as the final fallback. -/
def choose_card (hand : List String) (st : GameState) : Nat :=
  match valid_combo st hand st.my_tableau with
  | best :: _ => hand.indexOf best
  | [] =>
    if should_grab_chopsticks hand st = true ∧ "Chopsticks" ∈ hand then
      hand.indexOf "Chopsticks"
    else if pudding_rule st = true ∧ "Pudding" ∈ hand then
      hand.indexOf "Pudding"
    else if 2 ≤ nigiriCount hand ∧ "Wasabi" ∈ hand then
      hand.indexOf "Wasabi"
    else if st.count "Dumpling" < 5 ∧ "Dumpling" ∈ hand then
      hand.indexOf "Dumpling"
    else if "Squid Nigiri" ∈ hand then hand.indexOf "Squid Nigiri"
    else if "Salmon Nigiri" ∈ hand then hand.indexOf "Salmon Nigiri"
    else if "Egg Nigiri" ∈ hand then hand.indexOf "Egg Nigiri"
    else if st.count "Sashimi" = 1 ∧ "Sashimi" ∈ hand then hand.indexOf "Sashimi"
    else if st.count "Tempura" = 1 ∧ "Tempura" ∈ hand then hand.indexOf "Tempura"
    else if "Sashimi" ∈ hand then hand.indexOf "Sashimi"
    else if "Maki Roll (3)" ∈ hand then hand.indexOf "Maki Roll (3)"
    else if "Maki Roll (2)" ∈ hand then hand.indexOf "Maki Roll (2)"
    else if "Maki Roll (1)" ∈ hand then hand.indexOf "Maki Roll (1)"
    else 0

/-- All positions of a card in the hand, by enumerate-and-filter as in the
two sashimi/tempura index comprehensions of chopstick_combo. -/
def twoIndices (hand : List String) (card : String) : List Nat :=
  (hand.enum.filter (fun p => p.2 == card)).map Prod.fst

/-- The double-Sashimi branch of chopstick_combo: with exactly one Sashimi
down (mod 3) and at least two Sashimi positions in hand, the first two of
those positions; otherwise nothing, and the caller falls through. -/
def sashimi_pair (hand : List String) (st : GameState) : Option (Nat × Nat) :=
  if occurances st.my_tableau "Sashimi" % 3 = 1 then
    match twoIndices hand "Sashimi" with
    | a :: b :: _ => some (a, b)
    | _ => none
  else none

/-- The double-Tempura branch of chopstick_combo, analogous. -/
def tempura_pair (hand : List String) (st : GameState) : Option (Nat × Nat) :=
  if occurances st.my_tableau "Tempura" % 2 = 1 then
    match twoIndices hand "Tempura" with
    | a :: b :: _ => some (a, b)
    | _ => none
  else none

/-- chopstick_combo: the best two-card play when Chopsticks sit in the
tableau, in the source's priority order, Wasabi always first in a pair. -/
def chopstick_combo (hand : List String) (st : GameState) : Option (Nat × Nat) :=
  if st.has_chopsticks = false then none
  else
    match sashimi_pair hand st with
    | some p => some p
    | none =>
      if "Wasabi" ∈ hand ∧ "Squid Nigiri" ∈ hand then
        some (hand.indexOf "Wasabi", hand.indexOf "Squid Nigiri")
      else if "Wasabi" ∈ hand ∧ "Salmon Nigiri" ∈ hand then
        some (hand.indexOf "Wasabi", hand.indexOf "Salmon Nigiri")
      else
        match tempura_pair hand st with
        | some p => some p
        | none =>
          if "Wasabi" ∈ hand ∧ "Egg Nigiri" ∈ hand then
            some (hand.indexOf "Wasabi", hand.indexOf "Egg Nigiri")
          else none

/-- choose_chopsticks: forwards the chopstick_combo result (a returned pair
is always truthy in the source, so this is the identity on the option). -/
def choose_chopsticks (hand : List String) (st : GameState) : Option (Nat × Nat) :=
  match chopstick_combo hand st with
  | some p => some p
  | none => none

/-- record_play: append the played card to the own tableau, remember it as
the last play, and drop one occurrence of it from the tracked hand slot at
the cursor when that slot is populated and holds the card. -/
def GameState.record_play (st : GameState) (card : String) : GameState :=
  { st with
    last_card_played := some card,
    my_tableau := st.my_tableau ++ [card],
    all_hands :=
      match st.all_hands.get? st.current_hand_ptr with
      | some (some tracked) =>
        if card ∈ tracked then
          st.all_hands.set st.current_hand_ptr (some (tracked.erase card))
        else st.all_hands
      | _ => st.all_hands }

/-- Lookup in a dict modelled as an insertion-ordered association list. -/
def lookupTab : List (String × List String) → String → Option (List String)
  | [], _ => none
  | (q, t) :: rest, p => if q = p then some t else lookupTab rest p

/-- One reveal entry applied to the tableaux dict: extend an existing
player's entry in place, or append a fresh entry at the end (Python creates
the key with an empty list, then extends it). -/
def extendTab : List (String × List String) → String → List String → List (String × List String)
  | [], player, cards => [(player, cards)]
  | (q, t) :: rest, player, cards =>
    if q = player then (q, t ++ cards) :: rest
    else (q, t) :: extendTab rest player cards

/-- handle_played (record_reveal): store the reveals, bump the turn, extend
every revealed player's tableau, re-sync the own tableau under the own name,
and advance the rotation cursor. -/
def handle_played (st : GameState) (reveals : List (String × List String)) : GameState :=
  let tabs := reveals.foldl (fun acc pc => extendTab acc pc.1 pc.2) st.all_tableaux
  let myTab :=
    match lookupTab tabs st.player_name with
    | some t => t
    | none => st.my_tableau
  { st with
    last_turn_reveals := reveals,
    turn := st.turn + 1,
    all_tableaux := tabs,
    my_tableau := myTab,
    current_hand_ptr := st.current_hand_ptr + 1 }

/-- handle_round_start (on_round_start): reset every round-scoped field; the
rotation buffer gets max(player_count, 1) unknown slots. -/
def handle_round_start (st : GameState) (round_number : Int) : GameState :=
  { st with
    round := round_number,
    turn := 1,
    my_tableau := [],
    last_card_played := none,
    last_turn_reveals := [],
    current_hand_ptr := 0,
    all_hands := List.replicate (max st.player_count 1).toNat none,
    all_tableaux := [] }

/-- handle_game_start: capture the player count and size the buffer. -/
def handle_game_start (st : GameState) (n : Int) : GameState :=
  { st with player_count := n, all_hands := List.replicate n.toNat none }

/-- play_turn: with Chopsticks down try the two-card play (recording the
first card, appending the second, returning Chopsticks to hand), otherwise
a single choose_card play.  Out-of-range indexing, which Python would raise
on, is modelled by getD and never reached. -/
def play_turn (st : GameState) : GameState :=
  if st.hand = [] then st
  else if st.has_chopsticks = true then
    match choose_chopsticks st.hand st with
    | some (i, j) =>
      let st1 := st.record_play (st.hand.getD i "")
      let tab := st1.my_tableau ++ [st.hand.getD j ""]
      let tab2 := if "Chopsticks" ∈ tab then tab.erase "Chopsticks" else tab
      { st1 with my_tableau := tab2 }
    | none => st.record_play (st.hand.getD (choose_card st.hand st) "")
  else st.record_play (st.hand.getD (choose_card st.hand st) "")

/-- Receiving a HAND line: set the working hand, record it into the slot at
the cursor when in range, then play the turn. -/
def handle_hand (st : GameState) (cards : List String) : GameState :=
  let st1 := { st with hand := cards }
  let st2 :=
    if st1.current_hand_ptr < st1.all_hands.length then
      { st1 with all_hands := st1.all_hands.set st1.current_hand_ptr (some cards) }
    else st1
  play_turn st2

/-- The decoded inbound messages the per-game loop distinguishes. -/
inductive Msg where
  | tournament_match (raw : String)
  | tournament_complete (raw : String)
  | game_end
  | game_start (player_count : Int)
  | round_start (round_number : Int)
  | played (reveals : List (String × List String))
  | round_end
  | hand_msg (cards : List String)
  | misc
deriving DecidableEq

/-- Dispatch of one in-match message to its state handler (ROUND_END, OK,
WAITING and the like mutate nothing). -/
def handle_msg (st : GameState) : Msg → GameState
  | .game_start n => handle_game_start st n
  | .round_start n => handle_round_start st n
  | .played r => handle_played st r
  | .hand_msg cards => handle_hand st cards
  | _ => st

/-- Is this one of the two tournament messages the game loop bubbles up. -/
def is_tournament_msg : Msg → Bool
  | .tournament_match _ => true
  | .tournament_complete _ => true
  | _ => false

/-- The per-game loop (_play_game) over a queue of inbound messages: a
tournament message is returned at once as the pending message together with
the untouched state and the unread rest of the queue; GAME_END ends the
game with no pending message; every other message is handled and the loop
continues.  An exhausted queue models the blocking read never returning. -/
def play_game : List Msg → GameState → Option Msg × GameState × List Msg
  | [], st => (none, st, [])
  | m :: rest, st =>
    match m with
    | .tournament_match s => (some (Msg.tournament_match s), st, rest)
    | .tournament_complete s => (some (Msg.tournament_complete s), st, rest)
    | .game_end => (none, st, rest)
    | other => play_game rest (handle_msg st other)

/-- The fixed priority order of single-card combo completions. -/
def combo_priority : List String :=
  ["Sashimi", "Squid Nigiri", "Salmon Nigiri", "Tempura", "Egg Nigiri"]

/-- Spec-side reading of a single-card combo completion: the card completes
a Sashimi triple, lands a Nigiri on an unused Wasabi, or completes a
Tempura pair, and is present in hand. -/
def combo_playable (st : GameState) (hand my_table : List String) (card : String) : Prop :=
  (card = "Sashimi" ∧ occurances my_table "Sashimi" % 3 = 2 ∧ "Sashimi" ∈ hand) ∨
  (card = "Squid Nigiri" ∧ st.has_unused_wasabi = true ∧ "Squid Nigiri" ∈ hand) ∨
  (card = "Salmon Nigiri" ∧ st.has_unused_wasabi = true ∧ "Salmon Nigiri" ∈ hand) ∨
  (card = "Tempura" ∧ occurances my_table "Tempura" % 2 = 1 ∧ "Tempura" ∈ hand) ∨
  (card = "Egg Nigiri" ∧ st.has_unused_wasabi = true ∧ "Egg Nigiri" ∈ hand)

instance (st : GameState) (hand my_table : List String) (card : String) :
    Decidable (combo_playable st hand my_table card) := by
  unfold combo_playable
  infer_instance

/-- C1 scenario state: empty tableau (so no unused Wasabi), no Chopsticks,
no tracked opponents. -/
def c1_state : GameState := {}

/-- C2 scenario state: own tableau holds two Sashimi. -/
def c2_state : GameState := { my_tableau := ["Sashimi", "Sashimi"] }

/-- C3 witness state: Chopsticks down, nothing else. -/
def c3_state : GameState := { my_tableau := ["Chopsticks"] }

/-- C4 witness state: the next rotation slot is known and holds Wasabi plus
an Egg Nigiri. -/
def c4_state : GameState :=
  { all_hands := [some [], some ["Wasabi", "Egg Nigiri"]], current_hand_ptr := 0 }

/-- C5 initial state for the message-loop scenarios. -/
def c5_state : GameState := {}

/-- C5 counterexample queue: a tournament match assignment arrives while a
reveal and the game end are still unread. -/
def c5_queue : List Msg :=
  [Msg.tournament_match "T", Msg.played [("Alice", ["Tempura"])], Msg.game_end]

/-- C5 witness prefix: one in-match reveal before the tournament message. -/
def c5w_pre : List Msg := [Msg.played [("Alice", ["Tempura"])]]

/-- C6 witness state: empty tableaux. -/
def c6_state : GameState := {}

/-- C6 witness reveal map. -/
def c6_reveals : List (String × List String) := [("Alice", ["Tempura"]), ("Bob", ["Sashimi"])]

/-- C7 witness state: the cursor slot is populated with two cards. -/
def c7_state : GameState :=
  { all_hands := [some ["Tempura", "Sashimi"]], current_hand_ptr := 0 }

/-- C8 witness state: three players and plenty of stale round data. -/
def c8_state : GameState :=
  { player_count := 3, my_tableau := ["Pudding"], all_tableaux := [("Bob", ["Tempura"])],
    turn := 5, current_hand_ptr := 2, all_hands := [some ["Wasabi"], none],
    last_card_played := some "Pudding", last_turn_reveals := [("Bob", ["Tempura"])] }

/-- C10 witness state: a player count outside the turn table. -/
def c10_state : GameState := { player_count := 7, turn := 3 }

/-! ## Helper lemmas -/

/-- The first index of a member is in bounds. -/
theorem indexOf_lt_of_mem {l : List String} {c : String} (h : c ∈ l) :
    l.indexOf c < l.length :=
  List.indexOf_lt_length.2 h

/-- Every index produced by twoIndices points at the requested card. -/
theorem get_of_mem_twoIndices {hand : List String} {card : String} {k : Nat}
    (hk : k ∈ twoIndices hand card) : hand[k]? = some card := by
  simp only [twoIndices, List.mem_map, List.mem_filter] at hk
  obtain ⟨⟨i, c⟩, ⟨hmem, hc⟩, hfst⟩ := hk
  have hcc : c = card := by simpa using hc
  subst hcc
  have := List.mem_enum_iff_getElem?.1 hmem
  simpa [← hfst] using this

/-- choose_chopsticks forwards chopstick_combo unchanged. -/
theorem choose_chopsticks_eq (hand : List String) (st : GameState) :
    choose_chopsticks hand st = chopstick_combo hand st := by
  unfold choose_chopsticks
  cases chopstick_combo hand st <;> rfl

/-- Every card valid_combo proposes is present in the hand. -/
theorem valid_combo_subset (st : GameState) (hand my_table : List String) :
    ∀ c ∈ valid_combo st hand my_table, c ∈ hand := by
  intro c hc
  simp only [valid_combo, List.mem_append] at hc
  rcases hc with ((((h | h) | h) | h) | h) <;>
    · revert h
      split_ifs with hp
      · intro h
        simp only [List.mem_singleton] at h
        subst h
        exact hp.2
      · intro h
        cases h

/-! ## C9 -/

/-- C9: has_unused_wasabi holds exactly when the Wasabi count of the
tableau strictly exceeds the summed counts of the three Nigiri variants. -/
theorem c9_has_unused_wasabi_iff (st : GameState) :
    st.has_unused_wasabi = true ↔
      st.my_tableau.count "Egg Nigiri" + st.my_tableau.count "Salmon Nigiri" +
        st.my_tableau.count "Squid Nigiri" < st.my_tableau.count "Wasabi" := by
  simp [GameState.has_unused_wasabi, GameState.count]

/-! ## C8 -/

/-- C8: right after a round start the rotation buffer has player_count
all-unknown slots (one slot when the count is 0), the cursor and turn are
reset, and tableaux, last play and last reveals are cleared. -/
theorem c8_round_start_reset (st : GameState) (n : Int) :
    (1 ≤ st.player_count →
      (handle_round_start st n).all_hands.length = st.player_count.toNat) ∧
    (st.player_count = 0 → (handle_round_start st n).all_hands.length = 1) ∧
    (∀ s ∈ (handle_round_start st n).all_hands, s = none) ∧
    (handle_round_start st n).current_hand_ptr = 0 ∧
    (handle_round_start st n).turn = 1 ∧
    (handle_round_start st n).my_tableau = [] ∧
    (handle_round_start st n).all_tableaux = [] ∧
    (handle_round_start st n).last_card_played = none ∧
    (handle_round_start st n).last_turn_reveals = [] ∧
    (handle_round_start st n).round = n := by
  refine ⟨?_, ?_, ?_, rfl, rfl, rfl, rfl, rfl, rfl, rfl⟩
  · intro h
    simp [handle_round_start, max_eq_left h]
  · intro h
    simp [handle_round_start, h]
  · intro s hs
    exact List.eq_of_mem_replicate hs

/-- C8 witness: the reset applied to a populated three-player state. -/
theorem c8_round_start_reset_witness :
    (1 ≤ c8_state.player_count) ∧
    (handle_round_start c8_state 2).all_hands.length = c8_state.player_count.toNat ∧
    (handle_round_start c8_state 2).turn = 1 ∧
    (handle_round_start c8_state 2).all_tableaux = [] :=
  ⟨by decide, (c8_round_start_reset c8_state 2).1 (by decide),
    (c8_round_start_reset c8_state 2).2.2.2.2.1,
    (c8_round_start_reset c8_state 2).2.2.2.2.2.2.1⟩

/-! ## C4 -/

/-- C4: with Chopsticks in hand and none in the tableau, the grab predicate
holds exactly when the next known hand has Wasabi plus a Nigiri variant, or
two Sashimi, or two Tempura; it is false when the next hand is unknown. -/
theorem c4_should_grab_chopsticks_iff (hand : List String) (st : GameState)
    (h1 : "Chopsticks" ∈ hand) (h2 : "Chopsticks" ∉ st.my_tableau) :
    (should_grab_chopsticks hand st = true ↔
      ∃ nh, st.next_hand = some nh ∧
        (("Wasabi" ∈ nh ∧
            ("Egg Nigiri" ∈ nh ∨ "Salmon Nigiri" ∈ nh ∨ "Squid Nigiri" ∈ nh)) ∨
          2 ≤ nh.count "Sashimi" ∨ 2 ≤ nh.count "Tempura")) ∧
    (st.next_hand = none → should_grab_chopsticks hand st = false) := by
  have hch : st.has_chopsticks = false := by
    simp [GameState.has_chopsticks, h2]
  cases hnh : st.next_hand with
  | none =>
    constructor
    · simp [should_grab_chopsticks, h1, hch, hnh]
    · intro _
      simp [should_grab_chopsticks, h1, hch, hnh]
  | some nh =>
    constructor
    · rw [should_grab_chopsticks, if_neg (by simpa using h1), hch]
      simp only [Bool.false_eq_true, if_false, hnh]
      constructor
      · intro hsg
        refine ⟨nh, rfl, ?_⟩
        by_cases ha : "Wasabi" ∈ nh ∧
            ("Egg Nigiri" ∈ nh ∨ "Salmon Nigiri" ∈ nh ∨ "Squid Nigiri" ∈ nh)
        · exact Or.inl ha
        · rw [if_neg ha] at hsg
          by_cases hb : 2 ≤ nh.count "Sashimi"
          · exact Or.inr (Or.inl hb)
          · rw [if_neg hb] at hsg
            by_cases hc : 2 ≤ nh.count "Tempura"
            · exact Or.inr (Or.inr hc)
            · rw [if_neg hc] at hsg
              cases hsg
      · rintro ⟨nh2, hnh2, hcond⟩
        have hee : nh2 = nh := (Option.some_inj.1 hnh2).symm
        subst hee
        rcases hcond with ha | hb | hc
        · rw [if_pos ha]
        · split_ifs <;> simp_all
        · split_ifs <;> simp_all
    · intro hcontra
      simp at hcontra

/-- C4 witness: Chopsticks in hand, empty tableau, next hand known with a
Wasabi + Egg Nigiri pair. -/
theorem c4_should_grab_chopsticks_iff_witness :
    ("Chopsticks" ∈ (["Chopsticks"] : List String)) ∧
    (should_grab_chopsticks ["Chopsticks"] c4_state = true ↔
      ∃ nh, c4_state.next_hand = some nh ∧
        (("Wasabi" ∈ nh ∧
            ("Egg Nigiri" ∈ nh ∨ "Salmon Nigiri" ∈ nh ∨ "Squid Nigiri" ∈ nh)) ∨
          2 ≤ nh.count "Sashimi" ∨ 2 ≤ nh.count "Tempura")) :=
  ⟨by decide, (c4_should_grab_chopsticks_iff ["Chopsticks"] c4_state (by decide) (by decide)).1⟩

/-! ## C2 -/

/-- combo_playable at the Sashimi card. -/
theorem combo_playable_sashimi (st : GameState) (hand my_table : List String) :
    combo_playable st hand my_table "Sashimi" ↔
      occurances my_table "Sashimi" % 3 = 2 ∧ "Sashimi" ∈ hand := by
  unfold combo_playable
  constructor
  · rintro (h | h | h | h | h)
    · exact h.2
    all_goals exact absurd h.1 (by decide)
  · intro h
    exact Or.inl ⟨rfl, h⟩

/-- combo_playable at the Squid Nigiri card. -/
theorem combo_playable_squid (st : GameState) (hand my_table : List String) :
    combo_playable st hand my_table "Squid Nigiri" ↔
      st.has_unused_wasabi = true ∧ "Squid Nigiri" ∈ hand := by
  unfold combo_playable
  constructor
  · rintro (h | h | h | h | h)
    · exact absurd h.1 (by decide)
    · exact h.2
    all_goals exact absurd h.1 (by decide)
  · intro h
    exact Or.inr (Or.inl ⟨rfl, h⟩)

/-- combo_playable at the Salmon Nigiri card. -/
theorem combo_playable_salmon (st : GameState) (hand my_table : List String) :
    combo_playable st hand my_table "Salmon Nigiri" ↔
      st.has_unused_wasabi = true ∧ "Salmon Nigiri" ∈ hand := by
  unfold combo_playable
  constructor
  · rintro (h | h | h | h | h)
    · exact absurd h.1 (by decide)
    · exact absurd h.1 (by decide)
    · exact h.2
    all_goals exact absurd h.1 (by decide)
  · intro h
    exact Or.inr (Or.inr (Or.inl ⟨rfl, h⟩))

/-- combo_playable at the Tempura card. -/
theorem combo_playable_tempura (st : GameState) (hand my_table : List String) :
    combo_playable st hand my_table "Tempura" ↔
      occurances my_table "Tempura" % 2 = 1 ∧ "Tempura" ∈ hand := by
  unfold combo_playable
  constructor
  · rintro (h | h | h | h | h)
    · exact absurd h.1 (by decide)
    · exact absurd h.1 (by decide)
    · exact absurd h.1 (by decide)
    · exact h.2
    · exact absurd h.1 (by decide)
  · intro h
    exact Or.inr (Or.inr (Or.inr (Or.inl ⟨rfl, h⟩)))

/-- combo_playable at the Egg Nigiri card. -/
theorem combo_playable_egg (st : GameState) (hand my_table : List String) :
    combo_playable st hand my_table "Egg Nigiri" ↔
      st.has_unused_wasabi = true ∧ "Egg Nigiri" ∈ hand := by
  unfold combo_playable
  constructor
  · rintro (h | h | h | h | h)
    · exact absurd h.1 (by decide)
    · exact absurd h.1 (by decide)
    · exact absurd h.1 (by decide)
    · exact absurd h.1 (by decide)
    · exact h.2
  · intro h
    exact Or.inr (Or.inr (Or.inr (Or.inr ⟨rfl, h⟩)))

set_option maxHeartbeats 1000000 in
/-- valid_combo lists exactly the playable combo cards, in the fixed
priority order. -/
theorem valid_combo_eq_priority_filter (st : GameState) (hand my_table : List String) :
    valid_combo st hand my_table =
      combo_priority.filter (fun c => decide (combo_playable st hand my_table c)) := by
  simp only [combo_priority, List.filter_cons, List.filter_nil, decide_eq_true_eq,
    combo_playable_sashimi, combo_playable_squid, combo_playable_salmon,
    combo_playable_tempura, combo_playable_egg]
  unfold valid_combo
  split_ifs <;> rfl

/-- C2: with at least one combo completion playable, choose_card plays the
first card of the priority-ordered combo list; in the scenario with hand
Tempura, Sashimi, Pudding over a two-Sashimi tableau it returns index 1. -/
theorem c2_combo_priority_order :
    (∀ st hand my_table, valid_combo st hand my_table =
      combo_priority.filter (fun c => decide (combo_playable st hand my_table c))) ∧
    (∀ st hand best rest, valid_combo st hand st.my_tableau = best :: rest →
      choose_card hand st = hand.indexOf best) ∧
    choose_card ["Tempura", "Sashimi", "Pudding"] c2_state = 1 := by
  refine ⟨valid_combo_eq_priority_filter, ?_, by decide⟩
  intro st hand best rest h
  unfold choose_card
  rw [h]

/-- C2 witness: the general priority rule applied to the scenario input. -/
theorem c2_combo_priority_order_witness :
    valid_combo c2_state ["Tempura", "Sashimi", "Pudding"] c2_state.my_tableau =
      "Sashimi" :: [] ∧
    choose_card ["Tempura", "Sashimi", "Pudding"] c2_state =
      (["Tempura", "Sashimi", "Pudding"] : List String).indexOf "Sashimi" :=
  ⟨by decide,
    c2_combo_priority_order.2.1 c2_state ["Tempura", "Sashimi", "Pudding"] "Sashimi" []
      (by decide)⟩

/-! ## C1 -/

/-- C1 fails on the code: with hand Wasabi, Squid Nigiri, no unused Wasabi
and no Chopsticks anywhere, the Nigiri-count rule needs two Nigiri in hand
but only one is present, so choose_card returns index 1 (Squid Nigiri), not
index 0 (Wasabi). -/
theorem c1_counterexample :
    c1_state.has_unused_wasabi = false ∧
    "Chopsticks" ∉ c1_state.my_tableau ∧
    choose_card ["Wasabi", "Squid Nigiri"] c1_state = 1 ∧
    choose_card ["Wasabi", "Squid Nigiri"] c1_state ≠ 0 := by decide

/-- C1 amended: for every state without an unused Wasabi, choose_card on
hand Wasabi, Squid Nigiri skips every rule down to the plain best-Nigiri
rule and returns index 1, the Squid Nigiri. -/
theorem c1_amended_squid_over_wasabi (st : GameState)
    (h : st.has_unused_wasabi = false) :
    choose_card ["Wasabi", "Squid Nigiri"] st = 1 := by
  unfold choose_card
  have hvc : valid_combo st ["Wasabi", "Squid Nigiri"] st.my_tableau = [] := by
    simp [valid_combo, h]
  rw [hvc]
  have hnig : nigiriCount ["Wasabi", "Squid Nigiri"] = 1 := by decide
  simp [hnig]

/-- C1 amended witness: the amended rule at the scenario state. -/
theorem c1_amended_squid_over_wasabi_witness :
    c1_state.has_unused_wasabi = false ∧
    choose_card ["Wasabi", "Squid Nigiri"] c1_state = 1 :=
  ⟨by decide, c1_amended_squid_over_wasabi c1_state (by decide)⟩

/-! ## C3 -/

/-- Both indices a sashimi_pair returns point at Sashimi cards in hand. -/
theorem sashimi_pair_mem {hand : List String} {st : GameState} {a b : Nat}
    (h : sashimi_pair hand st = some (a, b)) :
    hand[a]? = some "Sashimi" ∧ hand[b]? = some "Sashimi" := by
  unfold sashimi_pair at h
  split_ifs at h with hocc
  cases htw : twoIndices hand "Sashimi" with
  | nil =>
    rw [htw] at h
    exact absurd h (by simp)
  | cons x rest =>
    cases rest with
    | nil =>
      rw [htw] at h
      exact absurd h (by simp)
    | cons y tl =>
      rw [htw] at h
      have hab : (x, y) = (a, b) := Option.some_inj.1 h
      have hx : x = a := congrArg Prod.fst hab
      have hy : y = b := congrArg Prod.snd hab
      subst hx
      subst hy
      have hma : x ∈ twoIndices hand "Sashimi" := by
        rw [htw]
        exact List.mem_cons_self _ _
      have hmb : y ∈ twoIndices hand "Sashimi" := by
        rw [htw]
        exact List.mem_cons_of_mem _ (List.mem_cons_self _ _)
      exact ⟨get_of_mem_twoIndices hma, get_of_mem_twoIndices hmb⟩

/-- Both indices a tempura_pair returns point at Tempura cards in hand. -/
theorem tempura_pair_mem {hand : List String} {st : GameState} {a b : Nat}
    (h : tempura_pair hand st = some (a, b)) :
    hand[a]? = some "Tempura" ∧ hand[b]? = some "Tempura" := by
  unfold tempura_pair at h
  split_ifs at h with hocc
  cases htw : twoIndices hand "Tempura" with
  | nil =>
    rw [htw] at h
    exact absurd h (by simp)
  | cons x rest =>
    cases rest with
    | nil =>
      rw [htw] at h
      exact absurd h (by simp)
    | cons y tl =>
      rw [htw] at h
      have hab : (x, y) = (a, b) := Option.some_inj.1 h
      have hx : x = a := congrArg Prod.fst hab
      have hy : y = b := congrArg Prod.snd hab
      subst hx
      subst hy
      have hma : x ∈ twoIndices hand "Tempura" := by
        rw [htw]
        exact List.mem_cons_self _ _
      have hmb : y ∈ twoIndices hand "Tempura" := by
        rw [htw]
        exact List.mem_cons_of_mem _ (List.mem_cons_self _ _)
      exact ⟨get_of_mem_twoIndices hma, get_of_mem_twoIndices hmb⟩

/-- Every pair chopstick_combo returns is one of the five two-card plays,
read off through the cards at the two indices. -/
theorem chopstick_combo_cases (hand : List String) (st : GameState) (i j : Nat)
    (h : chopstick_combo hand st = some (i, j)) :
    (hand[i]? = some "Sashimi" ∧ hand[j]? = some "Sashimi") ∨
    (hand[i]? = some "Wasabi" ∧ hand[j]? = some "Squid Nigiri") ∨
    (hand[i]? = some "Wasabi" ∧ hand[j]? = some "Salmon Nigiri") ∨
    (hand[i]? = some "Tempura" ∧ hand[j]? = some "Tempura") ∨
    (hand[i]? = some "Wasabi" ∧ hand[j]? = some "Egg Nigiri") := by
  unfold chopstick_combo at h
  by_cases hc : st.has_chopsticks = false
  · rw [if_pos hc] at h
    exact absurd h (by simp)
  · rw [if_neg hc] at h
    cases hsp : sashimi_pair hand st with
    | some p =>
      simp only [hsp] at h
      obtain ⟨a, b⟩ := p
      have hab : (a, b) = (i, j) := Option.some_inj.1 h
      have ha : a = i := congrArg Prod.fst hab
      have hb : b = j := congrArg Prod.snd hab
      subst ha
      subst hb
      exact Or.inl (sashimi_pair_mem hsp)
    | none =>
      simp only [hsp] at h
      by_cases h1 : "Wasabi" ∈ hand ∧ "Squid Nigiri" ∈ hand
      · rw [if_pos h1] at h
        have hab := Option.some_inj.1 h
        have ha : hand.indexOf "Wasabi" = i := congrArg Prod.fst hab
        have hb : hand.indexOf "Squid Nigiri" = j := congrArg Prod.snd hab
        subst ha
        subst hb
        refine Or.inr (Or.inl ⟨?_, ?_⟩)
        · rw [← List.get?_eq_getElem?]
          exact List.indexOf_get? h1.1
        · rw [← List.get?_eq_getElem?]
          exact List.indexOf_get? h1.2
      · rw [if_neg h1] at h
        by_cases h2 : "Wasabi" ∈ hand ∧ "Salmon Nigiri" ∈ hand
        · rw [if_pos h2] at h
          have hab := Option.some_inj.1 h
          have ha : hand.indexOf "Wasabi" = i := congrArg Prod.fst hab
          have hb : hand.indexOf "Salmon Nigiri" = j := congrArg Prod.snd hab
          subst ha
          subst hb
          refine Or.inr (Or.inr (Or.inl ⟨?_, ?_⟩))
          · rw [← List.get?_eq_getElem?]
            exact List.indexOf_get? h2.1
          · rw [← List.get?_eq_getElem?]
            exact List.indexOf_get? h2.2
        · rw [if_neg h2] at h
          cases htp : tempura_pair hand st with
          | some p =>
            simp only [htp] at h
            obtain ⟨a, b⟩ := p
            have hab : (a, b) = (i, j) := Option.some_inj.1 h
            have ha : a = i := congrArg Prod.fst hab
            have hb : b = j := congrArg Prod.snd hab
            subst ha
            subst hb
            exact Or.inr (Or.inr (Or.inr (Or.inl (tempura_pair_mem htp))))
          | none =>
            simp only [htp] at h
            by_cases h3 : "Wasabi" ∈ hand ∧ "Egg Nigiri" ∈ hand
            · rw [if_pos h3] at h
              have hab := Option.some_inj.1 h
              have ha : hand.indexOf "Wasabi" = i := congrArg Prod.fst hab
              have hb : hand.indexOf "Egg Nigiri" = j := congrArg Prod.snd hab
              subst ha
              subst hb
              refine Or.inr (Or.inr (Or.inr (Or.inr ⟨?_, ?_⟩)))
              · rw [← List.get?_eq_getElem?]
                exact List.indexOf_get? h3.1
              · rw [← List.get?_eq_getElem?]
                exact List.indexOf_get? h3.2
            · rw [if_neg h3] at h
              exact absurd h (by simp)

/-- C3: whenever the chopstick chooser returns a pair one of whose cards is
Wasabi, the Wasabi is at the first index and never at the second. -/
theorem c3_wasabi_never_second (hand : List String) (st : GameState) (i j : Nat)
    (h : choose_chopsticks hand st = some (i, j))
    (hw : hand[i]? = some "Wasabi" ∨ hand[j]? = some "Wasabi") :
    hand[i]? = some "Wasabi" ∧ hand[j]? ≠ some "Wasabi" := by
  rw [choose_chopsticks_eq] at h
  rcases chopstick_combo_cases hand st i j h with hc | hc | hc | hc | hc <;>
    · rw [hc.1, hc.2] at hw ⊢
      rcases hw with hw | hw <;>
        first
          | exact absurd (Option.some_inj.1 hw) (by decide)
          | exact ⟨rfl, by decide⟩

/-- C3 witness: Chopsticks down, hand Wasabi + Squid Nigiri, the chooser
returns the pair with Wasabi first. -/
theorem c3_wasabi_never_second_witness :
    choose_chopsticks ["Wasabi", "Squid Nigiri"] c3_state = some (0, 1) ∧
    ((["Wasabi", "Squid Nigiri"] : List String)[0]? = some "Wasabi" ∧
      (["Wasabi", "Squid Nigiri"] : List String)[1]? ≠ some "Wasabi") :=
  ⟨by decide,
    c3_wasabi_never_second ["Wasabi", "Squid Nigiri"] c3_state 0 1 (by decide)
      (Or.inl (by decide))⟩

/-! ## C5 -/

/-- C5 fails on the code: in the queue where a tournament match assignment
precedes a reveal and the game end, the per-game loop returns the
tournament message at once, leaving the reveal and GAME_END unprocessed in
the queue and the state untouched (the turn counter does not advance), so
in-match messages are not handled through GAME_END first. -/
theorem c5_counterexample :
    play_game c5_queue c5_state =
      (some (Msg.tournament_match "T"), c5_state,
        [Msg.played [("Alice", ["Tempura"])], Msg.game_end]) ∧
    (play_game c5_queue c5_state).2.1.turn ≠ c5_state.turn + 1 := by
  constructor
  · rfl
  · decide

/-- C5 amended: a tournament message is buffered by being returned the
moment it is read: the loop handles exactly the in-match messages that
precede it, returns it as the pending message, and leaves everything after
it unread. -/
theorem c5_amended_tournament_msg_returned_immediately (pre : List Msg) (m : Msg)
    (post : List Msg) (st : GameState)
    (hpre : ∀ x ∈ pre, is_tournament_msg x = false ∧ x ≠ Msg.game_end)
    (hm : is_tournament_msg m = true) :
    play_game (pre ++ m :: post) st = (some m, pre.foldl handle_msg st, post) := by
  induction pre generalizing st with
  | nil =>
    cases m <;> simp_all [play_game, is_tournament_msg]
  | cons x xs ih =>
    obtain ⟨hx1, hx2⟩ := hpre x (List.mem_cons_self x xs)
    have hrest : ∀ y ∈ xs, is_tournament_msg y = false ∧ y ≠ Msg.game_end :=
      fun y hy => hpre y (List.mem_cons_of_mem x hy)
    cases x with
    | tournament_match s => simp [is_tournament_msg] at hx1
    | tournament_complete s => simp [is_tournament_msg] at hx1
    | game_end => exact absurd rfl hx2
    | game_start n => exact ih (handle_msg st (Msg.game_start n)) hrest
    | round_start n => exact ih (handle_msg st (Msg.round_start n)) hrest
    | played r => exact ih (handle_msg st (Msg.played r)) hrest
    | round_end => exact ih (handle_msg st Msg.round_end) hrest
    | hand_msg cards => exact ih (handle_msg st (Msg.hand_msg cards)) hrest
    | misc => exact ih (handle_msg st Msg.misc) hrest

/-- C5 amended witness: one reveal precedes a tournament-complete message;
the loop handles the reveal, then returns the tournament message. -/
theorem c5_amended_witness :
    play_game (c5w_pre ++ Msg.tournament_complete "T" :: []) c5_state =
      (some (Msg.tournament_complete "T"), c5w_pre.foldl handle_msg c5_state, []) :=
  c5_amended_tournament_msg_returned_immediately c5w_pre (Msg.tournament_complete "T") []
    c5_state (by decide) (by decide)

/-! ## C6 -/

/-- Extending a player's entry changes that player's lookup to the old
value (empty when absent) extended by the new cards. -/
theorem lookupTab_extendTab_self (tabs : List (String × List String)) (q : String)
    (cs : List String) :
    lookupTab (extendTab tabs q cs) q = some ((lookupTab tabs q).getD [] ++ cs) := by
  induction tabs with
  | nil => simp [extendTab, lookupTab]
  | cons ht rest ih =>
    obtain ⟨r, t⟩ := ht
    by_cases hr : r = q
    · subst hr
      simp [extendTab, lookupTab]
    · simp [extendTab, lookupTab, hr, ih]

/-- Extending one player's entry leaves every other player's lookup alone. -/
theorem lookupTab_extendTab_ne (tabs : List (String × List String)) (q p : String)
    (cs : List String) (h : p ≠ q) :
    lookupTab (extendTab tabs q cs) p = lookupTab tabs p := by
  induction tabs with
  | nil =>
    simp [extendTab, lookupTab, Ne.symm h]
  | cons ht rest ih =>
    obtain ⟨r, t⟩ := ht
    by_cases hr : r = q
    · subst hr
      simp [extendTab, lookupTab, Ne.symm h]
    · by_cases hp : r = p
      · subst hp
        simp [extendTab, lookupTab, hr]
      · simp [extendTab, lookupTab, hr, hp, ih]

/-- Folding reveal entries for other players does not move a lookup. -/
theorem lookupTab_foldl_not_mem (p : String) :
    ∀ (reveals : List (String × List String)) (acc : List (String × List String)),
      p ∉ reveals.map Prod.fst →
      lookupTab (reveals.foldl (fun a pc => extendTab a pc.1 pc.2) acc) p = lookupTab acc p := by
  intro reveals
  induction reveals with
  | nil =>
    intro acc _
    rfl
  | cons hd rest ih =>
    intro acc hnm
    rw [List.foldl_cons]
    have hne : p ≠ hd.1 := by
      intro he
      exact hnm (by simp [he])
    rw [ih _ (fun hm => hnm (by simp [hm]))]
    exact lookupTab_extendTab_ne acc hd.1 p hd.2 hne

/-- Folding a reveal map with pairwise-distinct names extends the looked-up
player's entry exactly by that player's cards. -/
theorem lookupTab_foldl_mem (p : String) (cards : List String) :
    ∀ (reveals : List (String × List String)) (acc : List (String × List String)),
      (reveals.map Prod.fst).Nodup → (p, cards) ∈ reveals →
      lookupTab (reveals.foldl (fun a pc => extendTab a pc.1 pc.2) acc) p =
        some ((lookupTab acc p).getD [] ++ cards) := by
  intro reveals
  induction reveals with
  | nil =>
    intro acc _ hmem
    cases hmem
  | cons hd rest ih =>
    intro acc hnd hmem
    rw [List.foldl_cons]
    have hcons := List.nodup_cons.1 hnd
    rcases List.mem_cons.1 hmem with heq | hmem'
    · have hp1 : hd.1 = p := by rw [← heq]
      have hp2 : hd.2 = cards := by rw [← heq]
      have hnp : p ∉ rest.map Prod.fst := hp1 ▸ hcons.1
      rw [lookupTab_foldl_not_mem p rest _ hnp, hp1, hp2]
      exact lookupTab_extendTab_self acc p cards
    · have hp : p ∈ rest.map Prod.fst := List.mem_map.2 ⟨(p, cards), hmem', rfl⟩
      have hne : p ≠ hd.1 := fun he => hcons.1 (he ▸ hp)
      rw [ih _ hcons.2 hmem', lookupTab_extendTab_ne acc hd.1 p hd.2 hne]

/-- C6: handle_played bumps the turn counter by one, advances the rotation
cursor by one, stores the reveals, and appends every revealed player's
cards (one or two of them, in order) to that player's tableau, creating the
entry on first sight. -/
theorem c6_record_reveal_appends (st : GameState) (reveals : List (String × List String))
    (hnd : (reveals.map Prod.fst).Nodup) :
    (handle_played st reveals).turn = st.turn + 1 ∧
    (handle_played st reveals).current_hand_ptr = st.current_hand_ptr + 1 ∧
    (handle_played st reveals).last_turn_reveals = reveals ∧
    ∀ p cards, (p, cards) ∈ reveals →
      lookupTab (handle_played st reveals).all_tableaux p =
        some ((lookupTab st.all_tableaux p).getD [] ++ cards) := by
  refine ⟨rfl, rfl, rfl, ?_⟩
  intro p cards hmem
  exact lookupTab_foldl_mem p cards reveals st.all_tableaux hnd hmem

/-- C6 witness: the two-player reveal applied to empty tableaux yields a
fresh Alice entry holding exactly her revealed card, with turn and cursor
advanced by one. -/
theorem c6_record_reveal_appends_witness :
    (handle_played c6_state c6_reveals).turn = c6_state.turn + 1 ∧
    (handle_played c6_state c6_reveals).current_hand_ptr = c6_state.current_hand_ptr + 1 ∧
    lookupTab (handle_played c6_state c6_reveals).all_tableaux "Alice" =
      some ((lookupTab c6_state.all_tableaux "Alice").getD [] ++ ["Tempura"]) :=
  ⟨(c6_record_reveal_appends c6_state c6_reveals (by decide)).1,
    (c6_record_reveal_appends c6_state c6_reveals (by decide)).2.1,
    (c6_record_reveal_appends c6_state c6_reveals (by decide)).2.2.2 "Alice" ["Tempura"]
      (by decide)⟩

/-! ## C7 -/

/-- The rotation buffer of record_play when the cursor slot holds the card:
one occurrence is erased in place. -/
theorem record_play_all_hands_mem (st : GameState) (card : String) (tracked : List String)
    (hslot : st.all_hands.get? st.current_hand_ptr = some (some tracked))
    (hmem : card ∈ tracked) :
    (st.record_play card).all_hands =
      st.all_hands.set st.current_hand_ptr (some (tracked.erase card)) := by
  unfold GameState.record_play
  simp only [hslot]
  rw [if_pos hmem]

/-- The rotation buffer of record_play when the card is missing from the
cursor slot: unchanged. -/
theorem record_play_all_hands_not_mem (st : GameState) (card : String) (tracked : List String)
    (hslot : st.all_hands.get? st.current_hand_ptr = some (some tracked))
    (hmem : card ∉ tracked) :
    (st.record_play card).all_hands = st.all_hands := by
  unfold GameState.record_play
  simp only [hslot]
  rw [if_neg hmem]

/-- The rotation buffer of record_play when the cursor slot is unknown:
unchanged. -/
theorem record_play_all_hands_unknown (st : GameState) (card : String)
    (hslot : st.all_hands.get? st.current_hand_ptr = some none) :
    (st.record_play card).all_hands = st.all_hands := by
  unfold GameState.record_play
  simp only [hslot]

/-- The rotation buffer of record_play when the cursor is out of range:
unchanged. -/
theorem record_play_all_hands_oob (st : GameState) (card : String)
    (hslot : st.all_hands.get? st.current_hand_ptr = none) :
    (st.record_play card).all_hands = st.all_hands := by
  unfold GameState.record_play
  simp only [hslot]

/-- C7: record_play always appends the card to the own tableau and records
it as last played; when the cursor slot is populated and holds the card it
loses exactly one occurrence of it (counts of every other card unchanged)
and every other slot is untouched; when the card or the slot is absent the
whole buffer is left unchanged. -/
theorem c7_record_play_frame (st : GameState) (card : String) :
    (st.record_play card).my_tableau = st.my_tableau ++ [card] ∧
    (st.record_play card).last_card_played = some card ∧
    (∀ k, k ≠ st.current_hand_ptr →
      (st.record_play card).all_hands.get? k = st.all_hands.get? k) ∧
    (∀ tracked, st.all_hands.get? st.current_hand_ptr = some (some tracked) →
      card ∈ tracked →
      (st.record_play card).all_hands.get? st.current_hand_ptr =
        some (some (tracked.erase card)) ∧
      (tracked.erase card).count card = tracked.count card - 1 ∧
      (∀ c, c ≠ card → (tracked.erase card).count c = tracked.count c)) ∧
    (∀ tracked, st.all_hands.get? st.current_hand_ptr = some (some tracked) →
      card ∉ tracked → (st.record_play card).all_hands = st.all_hands) ∧
    (st.all_hands.get? st.current_hand_ptr = some none →
      (st.record_play card).all_hands = st.all_hands) ∧
    (st.all_hands.get? st.current_hand_ptr = none →
      (st.record_play card).all_hands = st.all_hands) := by
  cases hslot : st.all_hands.get? st.current_hand_ptr with
  | none =>
    have hah := record_play_all_hands_oob st card hslot
    refine ⟨rfl, rfl, fun k _ => by rw [hah], ?_, fun _ _ _ => by rw [hah],
      fun habs => absurd habs (by simp), fun _ => by rw [hah]⟩
    intro tracked htr
    exact absurd htr (by simp)
  | some slot =>
    cases slot with
    | none =>
      have hah := record_play_all_hands_unknown st card hslot
      refine ⟨rfl, rfl, fun k _ => by rw [hah], ?_, fun _ _ _ => by rw [hah],
        fun _ => by rw [hah], fun habs => absurd habs (by simp)⟩
      intro tracked htr
      exact absurd htr (by simp)
    | some tracked0 =>
      by_cases hmem : card ∈ tracked0
      · have hah := record_play_all_hands_mem st card tracked0 hslot hmem
        have hlt : st.current_hand_ptr < st.all_hands.length := by
          rw [List.get?_eq_getElem?] at hslot
          exact (List.getElem?_eq_some.1 hslot).1
        refine ⟨rfl, rfl, ?_, ?_, ?_, ?_, ?_⟩
        · intro k hk
          rw [hah]
          simp only [List.get?_eq_getElem?]
          exact List.getElem?_set_ne (Ne.symm hk)
        · intro tracked htr hmem2
          have htr0 : tracked0 = tracked := by simpa using htr
          subst htr0
          refine ⟨?_, List.count_erase_self card tracked0,
            fun c hc => List.count_erase_of_ne hc tracked0⟩
          rw [hah]
          simp only [List.get?_eq_getElem?]
          exact List.getElem?_set_self hlt
        · intro tracked htr hnm
          have htr0 : tracked0 = tracked := by simpa using htr
          subst htr0
          exact absurd hmem hnm
        · intro habs
          exact absurd habs (by simp)
        · intro habs
          exact absurd habs (by simp)
      · have hah := record_play_all_hands_not_mem st card tracked0 hslot hmem
        refine ⟨rfl, rfl, fun k _ => by rw [hah], ?_, fun _ _ _ => by rw [hah],
          fun habs => absurd habs (by simp), fun habs => absurd habs (by simp)⟩
        intro tracked htr hmem2
        have htr0 : tracked0 = tracked := by simpa using htr
        subst htr0
        exact absurd hmem2 hmem


/-- C7 witness: playing Tempura from a slot holding Tempura and Sashimi
removes exactly the one Tempura and appends it to the tableau. -/
theorem c7_record_play_frame_witness :
    (c7_state.record_play "Tempura").my_tableau = c7_state.my_tableau ++ ["Tempura"] ∧
    (c7_state.record_play "Tempura").all_hands.get? c7_state.current_hand_ptr =
      some (some ((["Tempura", "Sashimi"] : List String).erase "Tempura")) ∧
    ((["Tempura", "Sashimi"] : List String).erase "Tempura").count "Tempura" =
      (["Tempura", "Sashimi"] : List String).count "Tempura" - 1 :=
  ⟨(c7_record_play_frame c7_state "Tempura").1,
    ((c7_record_play_frame c7_state "Tempura").2.2.2.1 ["Tempura", "Sashimi"]
      (by decide) (by decide)).1,
    ((c7_record_play_frame c7_state "Tempura").2.2.2.1 ["Tempura", "Sashimi"]
      (by decide) (by decide)).2.1⟩

/-! ## C10 -/

set_option maxHeartbeats 1600000 in
/-- C10: on every non-empty hand and arbitrary state (any player count,
empty tableaux map, unpopulated buffer), choose_card returns an index
strictly below the hand length: every rule returns the position of a card
it has checked to be in hand, and the fallback returns 0. -/
theorem c10_choose_card_in_bounds (hand : List String) (st : GameState)
    (h : hand ≠ []) :
    choose_card hand st < hand.length := by
  cases hvc : valid_combo st hand st.my_tableau with
  | cons best rest =>
    have hcc : choose_card hand st = hand.indexOf best := by
      unfold choose_card
      rw [hvc]
    rw [hcc]
    refine indexOf_lt_of_mem (valid_combo_subset st hand st.my_tableau best ?_)
    rw [hvc]
    exact List.mem_cons_self best rest
  | nil =>
    simp only [choose_card, hvc]
    by_cases h1 : should_grab_chopsticks hand st = true ∧ "Chopsticks" ∈ hand
    · rw [if_pos h1]
      exact indexOf_lt_of_mem h1.2
    · rw [if_neg h1]
      by_cases h2 : pudding_rule st = true ∧ "Pudding" ∈ hand
      · rw [if_pos h2]
        exact indexOf_lt_of_mem h2.2
      · rw [if_neg h2]
        by_cases h3 : 2 ≤ nigiriCount hand ∧ "Wasabi" ∈ hand
        · rw [if_pos h3]
          exact indexOf_lt_of_mem h3.2
        · rw [if_neg h3]
          by_cases h4 : st.count "Dumpling" < 5 ∧ "Dumpling" ∈ hand
          · rw [if_pos h4]
            exact indexOf_lt_of_mem h4.2
          · rw [if_neg h4]
            by_cases h5 : "Squid Nigiri" ∈ hand
            · rw [if_pos h5]
              exact indexOf_lt_of_mem h5
            · rw [if_neg h5]
              by_cases h6 : "Salmon Nigiri" ∈ hand
              · rw [if_pos h6]
                exact indexOf_lt_of_mem h6
              · rw [if_neg h6]
                by_cases h7 : "Egg Nigiri" ∈ hand
                · rw [if_pos h7]
                  exact indexOf_lt_of_mem h7
                · rw [if_neg h7]
                  by_cases h8 : st.count "Sashimi" = 1 ∧ "Sashimi" ∈ hand
                  · rw [if_pos h8]
                    exact indexOf_lt_of_mem h8.2
                  · rw [if_neg h8]
                    by_cases h9 : st.count "Tempura" = 1 ∧ "Tempura" ∈ hand
                    · rw [if_pos h9]
                      exact indexOf_lt_of_mem h9.2
                    · rw [if_neg h9]
                      by_cases h10 : "Sashimi" ∈ hand
                      · rw [if_pos h10]
                        exact indexOf_lt_of_mem h10
                      · rw [if_neg h10]
                        by_cases h11 : "Maki Roll (3)" ∈ hand
                        · rw [if_pos h11]
                          exact indexOf_lt_of_mem h11
                        · rw [if_neg h11]
                          by_cases h12 : "Maki Roll (2)" ∈ hand
                          · rw [if_pos h12]
                            exact indexOf_lt_of_mem h12
                          · rw [if_neg h12]
                            by_cases h13 : "Maki Roll (1)" ∈ hand
                            · rw [if_pos h13]
                              exact indexOf_lt_of_mem h13
                            · rw [if_neg h13]
                              exact List.length_pos.2 h


/-- C10 witness: a singleton hand under a seven-player state. -/
theorem c10_choose_card_in_bounds_witness :
    (["Pudding"] : List String) ≠ [] ∧
    choose_card ["Pudding"] c10_state < (["Pudding"] : List String).length :=
  ⟨by decide, c10_choose_card_in_bounds ["Pudding"] c10_state (by decide)⟩

end SushiGo
